import Mathlib

/-!
Verification of the core of the `pulse` host-monitoring program.

The development shallowly embeds the Go source:
* `checker.go`        — `HostStatus`, `checkHost` (SSH session + best-effort metrics);
* `main.go` fan-out   — `checkAllHosts` (one worker per host, index-tagged results);
* `notify.go`         — `StateTracker.Update` (edge-triggered up/down transitions);
* `internal/dispatch/dispatch.go` — the persistent assignment store.

Machine integers are modelled as `Nat`; wall-clock times (`time.Time`) are
modelled as an opaque `Nat` passed in explicitly wherever the Go code calls
`time.Now()`.  The SSH layer is modelled as an environment of oracle
functions (`SshEnv`), and the file system as an explicit
`Option` of file contents.  Go maps are modelled as association lists with
Go map semantics (lookup of the single binding; insert replaces).
-/

namespace Pulse

/-- `HostConfig` from `config.go`: per-host descriptor. -/
structure HostConfig where
  name : String
  host : String
  user : String
  port : Nat
  keyFile : String
  password : String
  label : String
deriving DecidableEq, Repr, Inhabited

/-- `HostStatus` from `checker.go`: one snapshot of a health check.
`lastCheck` is the opaque timestamp taken at the start of the check. -/
structure HostStatus where
  config : HostConfig
  online : Bool
  cpu : String
  memory : String
  disk : String
  uptime : String
  lastCheck : Nat
  error : String
deriving DecidableEq, Repr, Inhabited

/-! ### Go string helpers used by `checkHost`

Faithful models of `strings.Fields`, `strings.Trim`, `strings.TrimSpace`,
`strings.Contains` and `strings.SplitN` (specialised to the one-character
separators the program uses). -/

/-- Whitespace as recognised by Go's `unicode.IsSpace` on the ASCII range. -/
def goIsSpace (c : Char) : Bool :=
  c = ' ' || c = '\t' || c = '\n' || c = '\x0b' || c = '\x0c' || c = '\r'

/-- Drop characters of the cutset from both ends (`strings.Trim`). -/
def trimCutList (cut : List Char) (l : List Char) : List Char :=
  ((l.dropWhile (fun c => cut.contains c)).reverse.dropWhile
    (fun c => cut.contains c)).reverse

/-- `strings.Trim s cut`. -/
def goTrim (s : String) (cut : String) : String :=
  (trimCutList cut.toList s.toList).asString

/-- `strings.TrimSpace`. -/
def goTrimSpace (s : String) : String :=
  (((s.toList.dropWhile goIsSpace).reverse.dropWhile goIsSpace).reverse).asString

/-- Helper for `goFields`: accumulates the current (reversed) word. -/
def fieldsAux : List Char → List Char → List String
  | [], acc => if acc.isEmpty then [] else [acc.reverse.asString]
  | c :: rest, acc =>
    if goIsSpace c then
      if acc.isEmpty then fieldsAux rest []
      else acc.reverse.asString :: fieldsAux rest []
    else fieldsAux rest (c :: acc)

/-- `strings.Fields`: split around runs of whitespace. -/
def goFields (s : String) : List String :=
  fieldsAux s.toList []

/-- Substring test on character lists (`strings.Contains`). -/
def containsSub : List Char → List Char → Bool
  | [], pat => pat.isEmpty
  | l@(_ :: t), pat => pat.isPrefixOf l || containsSub t pat

/-- `strings.Contains s pat`. -/
def goContains (s : String) (pat : String) : Bool :=
  containsSub s.toList pat.toList

/-- Split off the part before the first occurrence of `sep`, if any. -/
def breakAtChar (sep : Char) : List Char → Option (List Char × List Char)
  | [] => none
  | c :: rest =>
    if c = sep then some ([], rest)
    else
      match breakAtChar sep rest with
      | none => none
      | some (pre, post) => some (c :: pre, post)

/-- `strings.SplitN` with a one-character separator: at most `n` pieces. -/
def splitNChar (sep : Char) : Nat → List Char → List (List Char)
  | 0, _ => []
  | 1, l => [l]
  | n + 2, l =>
    match breakAtChar sep l with
    | none => [l]
    | some (pre, post) => pre :: splitNChar sep (n + 1) post

/-- `strings.SplitN s sep n` for a one-character separator. -/
def goSplitN (s : String) (sep : Char) (n : Nat) : List String :=
  (splitNChar sep n s.toList).map List.asString

/-! ### `checkHost` (checker.go)

The SSH layer (`sshConnect`, `runCommand`) is abstracted as an environment
of oracles: `connect` stands for `sshConnect hc` (the `Unit` stands for the
opened `*ssh.Client`), and `run hc cmd` for `runCommand client cmd` on that
host's client, returning the combined output or an error. -/

structure SshEnv where
  connect : HostConfig → Except String Unit
  run : HostConfig → String → Except String String

/-- The exact load-average command line from `checker.go`. -/
def loadavgCmd : String :=
  "cat /proc/loadavg 2>/dev/null || sysctl -n vm.loadavg 2>/dev/null"

/-- The exact Linux memory command line from `checker.go`. -/
def memLinuxCmd : String :=
  "free -h 2>/dev/null | awk '/^Mem:/\x7bprint $3\"/\"$2\x7d'"

/-- The exact macOS memory command line from `checker.go`. -/
def memMacCmd : String :=
  "echo $(( $(vm_stat 2>/dev/null | awk '/Pages active|Pages wired/\x7bgsub(/\\./,\"\",$NF);s+=$NF\x7dEND\x7bprint s\x7d') * 4096 / 1048576 ))Mi/$(( $(sysctl -n hw.memsize 2>/dev/null) / 1048576 ))Mi"

/-- The exact disk command line from `checker.go`. -/
def diskCmd : String :=
  "df -h / 2>/dev/null | awk 'NR==2\x7bprint $5\x7d'"

/-- The exact uptime command line from `checker.go`. -/
def uptimeCmd : String :=
  "uptime -p 2>/dev/null || uptime | sed 's/.*up //' | sed 's/,.*//'"

/-- The `else if` branch of the memory step (macOS fallback). -/
def memFallback (env : SshEnv) (hc : HostConfig) (status : HostStatus) : HostStatus :=
  match env.run hc memMacCmd with
  | .ok out =>
    if goTrimSpace out ≠ "" ∧ goContains out "error" = false then
      { status with memory := goTrimSpace out }
    else status
  | .error _ => status

/-- `checkHost` from `checker.go`, step by step.  `now` models the
`time.Now()` taken when the status record is created. -/
def checkHost (env : SshEnv) (now : Nat) (hc : HostConfig) : HostStatus :=
  let status : HostStatus :=
    { config := hc, online := false, cpu := "", memory := "", disk := "",
      uptime := "", lastCheck := now, error := "" }
  match env.connect hc with
  | .error e => { status with online := false, error := e }
  | .ok _ =>
    let status := { status with online := true }
    -- Get load average
    let status :=
      match env.run hc loadavgCmd with
      | .ok out =>
        let parts := goFields (goTrim out "\x7b \x7d")
        if 3 ≤ parts.length then
          { status with
            cpu := parts.getD 0 "" ++ " " ++ parts.getD 1 "" ++ " " ++ parts.getD 2 "" }
        else status
      | .error _ => status
    -- Get memory (Linux: free, macOS: vm_stat + sysctl)
    let status :=
      match env.run hc memLinuxCmd with
      | .ok out =>
        if goTrimSpace out ≠ "" then { status with memory := goTrimSpace out }
        else memFallback env hc status
      | .error _ => memFallback env hc status
    -- Get disk usage
    let status :=
      match env.run hc diskCmd with
      | .ok out => { status with disk := goTrimSpace out }
      | .error _ => status
    -- Get uptime
    let status :=
      match env.run hc uptimeCmd with
      | .ok out =>
        let u := goTrimSpace out
        let u :=
          if goContains u "load" then
            let parts := goSplitN u ',' 3
            if 1 ≤ parts.length then goTrimSpace (parts.getD 0 "") else u
          else u
        { status with uptime := u }
      | .error _ => status
    status

/-! ### `checkAllHosts` (main.go)

The Go function starts one goroutine per host; worker `i` sends the pair
`(i, checkHost hostsᵢ)` on a buffered channel and the main loop receives
exactly `N` pairs, storing each at its index.  The nondeterministic channel
delivery order is modelled by an explicit `order : List Nat`, the sequence
of worker indices in completion order; a real execution corresponds to any
`order` that is a permutation of `0, …, N-1`.  `check` abstracts `checkHost`
together with its environment. -/

/-- The receive loop: fold the received `(index, status)` pairs into the
pre-allocated result slice. -/
def gather (init : List HostStatus) (msgs : List (Nat × HostStatus)) : List HostStatus :=
  msgs.foldl (fun acc m => acc.set m.1 m.2) init

/-- `checkAllHosts` from `main.go`, with the channel order made explicit. -/
def checkAllHosts (check : HostConfig → HostStatus) (hosts : List HostConfig)
    (order : List Nat) : List HostStatus :=
  gather (List.replicate hosts.length default)
    (order.map fun i => (i, check (hosts.getD i default)))

/-! ### `StateTracker` (notify.go)

`st.prev` is a Go `map[string]bool`, modelled as an association list with a
single binding per key.  `Update` returns the transition strings and, since
each transition spawns `go st.notify(r.Config, state)`, we also collect the
notification requests `(config, state)` it fires. -/

/-- The tracker's previous-state map: host → was online. -/
abbrev PrevMap := List (String × Bool)

/-- Go map read: `st.prev[key]` together with the `seen` flag
(`none` = absent). -/
def lookupPrev : PrevMap → String → Option Bool
  | [], _ => none
  | (k, v) :: rest, key => if k = key then some v else lookupPrev rest key

/-- Go map write: `st.prev[key] = v` (replace or append the binding). -/
def insertPrev : PrevMap → String → Bool → PrevMap
  | [], key, v => [(key, v)]
  | (k, w) :: rest, key, v =>
    if k = key then (key, v) :: rest else (k, w) :: insertPrev rest key v

/-- The "went DOWN" transition string built by `Update`. -/
def downMsg (hc : HostConfig) : String :=
  hc.label ++ " (" ++ hc.host ++ ") went DOWN"

/-- The "came UP" transition string built by `Update`. -/
def upMsg (hc : HostConfig) : String :=
  hc.label ++ " (" ++ hc.host ++ ") came UP"

/-- The transition string corresponding to a fired notification. -/
def msgOfNotif (p : HostConfig × String) : String :=
  if p.2 = "down" then downMsg p.1 else upMsg p.1

/-- The loop body of `StateTracker.Update`, with the accumulated transition
strings `ts` and notification requests `ns` made explicit. -/
def updateLoop : PrevMap → List String → List (HostConfig × String) →
    List HostStatus → PrevMap × List String × List (HostConfig × String)
  | prev, ts, ns, [] => (prev, ts, ns)
  | prev, ts, ns, r :: rest =>
    let key := r.config.host
    let seen := lookupPrev prev key
    let prev' := insertPrev prev key r.online
    match seen with
    | none => updateLoop prev' ts ns rest  -- first check, no transition
    | some wasOnline =>
      if wasOnline && !r.online then
        updateLoop prev' (ts ++ [downMsg r.config]) (ns ++ [(r.config, "down")]) rest
      else if !wasOnline && r.online then
        updateLoop prev' (ts ++ [upMsg r.config]) (ns ++ [(r.config, "up")]) rest
      else
        updateLoop prev' ts ns rest

/-- `StateTracker.Update`: returns the new previous-state map, the
transition strings, and the notifications fired as side effects. -/
def trackerUpdate (prev : PrevMap) (results : List HostStatus) :
    PrevMap × List String × List (HostConfig × String) :=
  updateLoop prev [] [] results

end Pulse

namespace Dispatch

/-- `Status` in `dispatch.go` is a string type. -/
abbrev Status := String

/-- `StatusPending`. -/
def statusPending : Status := "pending"

/-- `StatusInProgress`. -/
def statusInProgress : Status := "in-progress"

/-- `StatusDone`. -/
def statusDone : Status := "done"

/-- `StatusFailed`. -/
def statusFailed : Status := "failed"

/-- `Assignment` from `dispatch.go`.  `createdAt`/`updatedAt` are opaque
timestamps. -/
structure Assignment where
  id : String
  issueKey : String
  summary : String
  target : String
  status : Status
  createdAt : Nat
  updatedAt : Nat
  note : String
deriving DecidableEq, Repr, Inhabited

/-- The record built at the top of `Store.Assign`; both `time.Now()` calls
are modelled by the single instant `now`. -/
def mkAssignment (issueKey summary target : String) (now : Nat) : Assignment :=
  { id := issueKey ++ "→" ++ target
    issueKey := issueKey
    summary := summary
    target := target
    status := statusPending
    createdAt := now
    updatedAt := now
    note := "" }

/-- The loop of `Store.Assign`: replace the first existing assignment with
the same issue+target, else append. -/
def assignList : List Assignment → Assignment → List Assignment
  | [], a => [a]
  | e :: rest, a =>
    if e.issueKey = a.issueKey ∧ e.target = a.target then a :: rest
    else e :: assignList rest a

/-- The not-found error produced by `UpdateStatus` and `Remove`
(`fmt.Errorf("assignment %q not found", id)`). -/
def notFoundErr (id : String) : String :=
  "assignment \"" ++ id ++ "\" not found"

/-- The loop of `Store.UpdateStatus` on the assignment slice: mutate the
first record with matching id, else report not-found.  Returns the slice
after the call together with the error, if any. -/
def updateStatusList (l : List Assignment) (id : String) (status : Status)
    (note : String) (now : Nat) : List Assignment × Option String :=
  match l with
  | [] => ([], some (notFoundErr id))
  | a :: rest =>
    if a.id = id then
      ({ a with status := status, note := note, updatedAt := now } :: rest, none)
    else
      let r := updateStatusList rest id status note now
      (a :: r.1, r.2)

/-- The loop of `Store.Remove`: delete the first record with matching id,
else report not-found.  Returns the slice after the call and the error. -/
def removeList (l : List Assignment) (id : String) : List Assignment × Option String :=
  match l with
  | [] => ([], some (notFoundErr id))
  | a :: rest =>
    if a.id = id then (rest, none)
    else
      let r := removeList rest id
      (a :: r.1, r.2)

/-- `Store` from `dispatch.go` (the mutex is a concurrency artefact and has
no functional content). -/
structure Store where
  path : String
  assignments : List Assignment
deriving DecidableEq, Repr, Inhabited

/-- `Store.Assign`: upsert and return the resulting record. -/
def Store.assign (s : Store) (issueKey summary target : String) (now : Nat) :
    Store × Assignment :=
  let a := mkAssignment issueKey summary target now
  ({ s with assignments := assignList s.assignments a }, a)

/-- `Store.UpdateStatus`. -/
def Store.updateStatus (s : Store) (id : String) (status : Status)
    (note : String) (now : Nat) : Store × Option String :=
  let r := updateStatusList s.assignments id status note now
  ({ s with assignments := r.1 }, r.2)

/-- `Store.Remove`. -/
def Store.remove (s : Store) (id : String) : Store × Option String :=
  let r := removeList s.assignments id
  ({ s with assignments := r.1 }, r.2)

/-! ### Persistence (`Save` / `NewStore`)

`encoding/json` is modelled at the level of JSON value trees: `Save`
produces the tree that `json.MarshalIndent` would render (pretty-printing
is an injective textual layer and is abstracted away), and `NewStore`
parses the tree that the file contents denote.  `time.Time` values are
rendered as our opaque timestamps.  A file whose bytes are not
syntactically valid JSON is one species of "malformed content"; the model
represents the other species — well-formed JSON of the wrong shape — which
`json.Unmarshal` rejects with a type error. -/

inductive Json where
  | null : Json
  | bool : Bool → Json
  | num : Nat → Json
  | str : String → Json
  | arr : List Json → Json
  | obj : List (String × Json) → Json
deriving Repr, BEq, Inhabited

/-- `json.Marshal` of one `Assignment`, following the struct tags:
`id`, `issue_key`, `summary`, `target`, `status`, `created_at`,
`updated_at`, and `note` with `omitempty`. -/
def marshalAssignment (a : Assignment) : Json :=
  Json.obj
    ([("id", Json.str a.id), ("issue_key", Json.str a.issueKey),
      ("summary", Json.str a.summary), ("target", Json.str a.target),
      ("status", Json.str a.status), ("created_at", Json.num a.createdAt),
      ("updated_at", Json.num a.updatedAt)] ++
      (if a.note = "" then [] else [("note", Json.str a.note)]))

/-- `json.Marshal` of the store: only the exported, tagged field
`Assignments` (tag `assignments`) is serialized. -/
def marshalStore (s : Store) : Json :=
  Json.obj [("assignments", Json.arr (s.assignments.map marshalAssignment))]

/-- `Store.Save`: the serialized value written wholesale to `s.path`
(directory creation and the file write are the I/O layer). -/
def Store.save (s : Store) : Json :=
  marshalStore s

/-- First binding for a key in a JSON object (marshalled objects never
contain duplicate keys). -/
def jsonLookup : List (String × Json) → String → Option Json
  | [], _ => none
  | (k, v) :: rest, key => if k = key then some v else jsonLookup rest key

/-- Unmarshal a JSON value into a Go `string` field: a missing key or
`null` leaves the zero value; a non-string value is a type error. -/
def getStringField (fields : List (String × Json)) (key : String) :
    Except String String :=
  match jsonLookup fields key with
  | none => .ok ""
  | some Json.null => .ok ""
  | some (Json.str s) => .ok s
  | some _ => .error ("cannot unmarshal field " ++ key ++ " into string")

/-- Unmarshal a JSON value into a `time.Time` field (opaque timestamp). -/
def getTimeField (fields : List (String × Json)) (key : String) :
    Except String Nat :=
  match jsonLookup fields key with
  | none => .ok 0
  | some Json.null => .ok 0
  | some (Json.num n) => .ok n
  | some _ => .error ("cannot unmarshal field " ++ key ++ " into time")

/-- `json.Unmarshal` into one `Assignment`: `null` leaves the zero value;
anything but an object is a type error. -/
def unmarshalAssignment : Json → Except String Assignment
  | Json.null => .ok default
  | Json.obj fields => do
    let id ← getStringField fields "id"
    let issueKey ← getStringField fields "issue_key"
    let summary ← getStringField fields "summary"
    let target ← getStringField fields "target"
    let status ← getStringField fields "status"
    let createdAt ← getTimeField fields "created_at"
    let updatedAt ← getTimeField fields "updated_at"
    let note ← getStringField fields "note"
    .ok { id := id, issueKey := issueKey, summary := summary, target := target,
          status := status, createdAt := createdAt, updatedAt := updatedAt,
          note := note }
  | _ => .error "cannot unmarshal into Assignment"

/-- `json.Unmarshal` into the `[]Assignment` slice. -/
def unmarshalAssignments : Json → Except String (List Assignment)
  | Json.null => .ok []
  | Json.arr elems => elems.mapM unmarshalAssignment
  | _ => .error "cannot unmarshal into []Assignment"

/-- `json.Unmarshal` of file contents into a `Store`: a top-level `null`
is a no-op, an object fills `Assignments` from its `assignments` key
(missing key leaves the slice empty), anything else is a type error. -/
def unmarshalStore : Json → Except String (List Assignment)
  | Json.null => .ok []
  | Json.obj fields =>
    match jsonLookup fields "assignments" with
    | none => .ok []
    | some v => unmarshalAssignments v
  | _ => .error "cannot unmarshal into Store"

/-- `DefaultPath`: `~/.pulse/dispatch.json` (home directory abstracted). -/
def defaultPath : String := "~/.pulse/dispatch.json"

/-- `NewStore`: `contents` is the result of `os.ReadFile path` — `none`
when the read fails (in particular when the file does not exist), in which
case the store starts empty; parse failures are wrapped like
`fmt.Errorf("parse dispatch file: %w", err)`. -/
def newStore (path : String) (contents : Option Json) : Except String Store :=
  let p := if path = "" then defaultPath else path
  match contents with
  | none => .ok { path := p, assignments := [] }
  | some j =>
    match unmarshalStore j with
    | .error e => .error ("parse dispatch file: " ++ e)
    | .ok asgns => .ok { path := p, assignments := asgns }

/-! ### The store invariant and reachability by public operations -/

/-- The identity the store deduplicates on: the `(issueKey, target)` pair. -/
def pairKey (a : Assignment) : String × String :=
  (a.issueKey, a.target)

/-- At most one assignment per distinct `(issueKey, target)` pair. -/
def UniquePairs (l : List Assignment) : Prop :=
  (l.map pairKey).Nodup

/-- Assignment lists reachable from the empty store by the public mutating
operations (`Assign`, `UpdateStatus`, `Remove`; the read-only operations do
not change the list). -/
inductive Reachable : List Assignment → Prop where
  | empty : Reachable []
  | assign (k s t : String) (n : Nat) {l : List Assignment} :
      Reachable l → Reachable (assignList l (mkAssignment k s t n))
  | updateStatus (id st note : String) (n : Nat) {l : List Assignment} :
      Reachable l → Reachable (updateStatusList l id st note n).1
  | remove (id : String) {l : List Assignment} :
      Reachable l → Reachable (removeList l id).1

end Dispatch

namespace Pulse

/-! ### Concrete inputs used by the witnesses and counterexamples -/

/-- A sample host. -/
def hostA : HostConfig :=
  { name := "a", host := "10.0.0.1", user := "root", port := 22,
    keyFile := "", password := "", label := "A" }

/-- A second sample host. -/
def hostB : HostConfig :=
  { name := "b", host := "10.0.0.2", user := "root", port := 22,
    keyFile := "", password := "", label := "B" }

/-- An environment where every dial fails. -/
def envDown : SshEnv :=
  { connect := fun _ => .error "dial: i/o timeout",
    run := fun _ _ => .error "session closed" }

/-- An environment where the session opens but every remote command
fails. -/
def envOpenAllFail : SshEnv :=
  { connect := fun _ => .ok (),
    run := fun _ _ => .error "command failed" }

/-- An environment where the session opens and only the disk command
succeeds. -/
def envOnlyDisk : SshEnv :=
  { connect := fun _ => .ok (),
    run := fun _ cmd => if cmd = diskCmd then .ok " 42% " else .error "failed" }

/-- The session failed to open. -/
def connectFailed (env : SshEnv) (hc : HostConfig) : Prop :=
  ∃ e, env.connect hc = .error e

/-- At least one of the five metric command invocations of `checkHost`
returned an error. -/
def metricStepFailed (env : SshEnv) (hc : HostConfig) : Prop :=
  (∃ e, env.run hc loadavgCmd = .error e) ∨
  (∃ e, env.run hc memLinuxCmd = .error e) ∨
  (∃ e, env.run hc memMacCmd = .error e) ∨
  (∃ e, env.run hc diskCmd = .error e) ∨
  (∃ e, env.run hc uptimeCmd = .error e)

end Pulse

/-! ## Theorems -/

namespace Dispatch

/-- `UpdateStatus` with an id matching nothing reports not-found and
rebuilds the slice unchanged. -/
theorem updateStatusList_notFound (l : List Assignment) (id status note : String)
    (now : Nat) (h : ∀ a ∈ l, a.id ≠ id) :
    updateStatusList l id status note now = (l, some (notFoundErr id)) := by
  induction l with
  | nil => rfl
  | cons a rest ih =>
    have ha : ¬a.id = id := h a (List.mem_cons_self a rest)
    have hrest := ih (fun b hb => h b (List.mem_cons_of_mem a hb))
    simp [updateStatusList, ha, hrest]

/-- `Remove` with an id matching nothing reports not-found and rebuilds the
slice unchanged. -/
theorem removeList_notFound (l : List Assignment) (id : String)
    (h : ∀ a ∈ l, a.id ≠ id) :
    removeList l id = (l, some (notFoundErr id)) := by
  induction l with
  | nil => rfl
  | cons a rest ih =>
    have ha : ¬a.id = id := h a (List.mem_cons_self a rest)
    have hrest := ih (fun b hb => h b (List.mem_cons_of_mem a hb))
    simp [removeList, ha, hrest]

/-- C7: for every store state and every id matching no stored assignment,
`UpdateStatus` and `Remove` both return the not-found error and leave the
store's assignment list exactly as it was. -/
theorem updateStatus_remove_unknown_id (s : Store) (id status note : String)
    (now : Nat) (h : ∀ a ∈ s.assignments, a.id ≠ id) :
    s.updateStatus id status note now = (s, some (notFoundErr id)) ∧
    s.remove id = (s, some (notFoundErr id)) := by
  constructor
  · simp [Store.updateStatus, updateStatusList_notFound s.assignments id status note now h]
  · simp [Store.remove, removeList_notFound s.assignments id h]

/-- Witness for C7 at a concrete store and id. -/
theorem updateStatus_remove_unknown_id_witness :
    ({ path := "p", assignments := [mkAssignment "PROJ-1" "Fix bug" "hostA" 5] } :
        Store).updateStatus "nope" statusDone "" 9 =
      ({ path := "p", assignments := [mkAssignment "PROJ-1" "Fix bug" "hostA" 5] },
        some (notFoundErr "nope")) ∧
    ({ path := "p", assignments := [mkAssignment "PROJ-1" "Fix bug" "hostA" 5] } :
        Store).remove "nope" =
      ({ path := "p", assignments := [mkAssignment "PROJ-1" "Fix bug" "hostA" 5] },
        some (notFoundErr "nope")) :=
  updateStatus_remove_unknown_id
    { path := "p", assignments := [mkAssignment "PROJ-1" "Fix bug" "hostA" 5] }
    "nope" statusDone "" 9 (by decide)

/-- C9: building a store when the file is absent succeeds with an empty
store; file contents the unmarshaller rejects make `NewStore` fail with a
wrapped parse error and produce no store. -/
theorem newStore_missing_file_and_malformed (path : String) :
    newStore path none =
      .ok { path := if path = "" then defaultPath else path, assignments := [] } ∧
    ∀ j e, unmarshalStore j = .error e →
      newStore path (some j) = .error ("parse dispatch file: " ++ e) := by
  constructor
  · rfl
  · intro j e h
    simp [newStore, h]

/-- Witness for C9 at a concrete path and a concrete malformed file. -/
theorem newStore_missing_file_and_malformed_witness :
    newStore "/tmp/dispatch.json" none =
      .ok { path := "/tmp/dispatch.json", assignments := [] } ∧
    newStore "/tmp/dispatch.json" (some (Json.str "oops")) =
      .error "parse dispatch file: cannot unmarshal into Store" := by
  have h := newStore_missing_file_and_malformed "/tmp/dispatch.json"
  refine ⟨?_, h.2 (Json.str "oops") "cannot unmarshal into Store" rfl⟩
  rw [h.1]
  rfl

/-- One assignment survives a marshal/unmarshal round trip, whether or not
the optional `note` is present. -/
theorem unmarshalAssignment_marshalAssignment (a : Assignment) :
    unmarshalAssignment (marshalAssignment a) = .ok a := by
  by_cases hn : a.note = ""
  · simp only [marshalAssignment, if_pos hn, List.append_nil]
    show Except.ok
        ⟨a.id, a.issueKey, a.summary, a.target, a.status, a.createdAt, a.updatedAt, ""⟩ =
      Except.ok a
    rw [← hn]
  · simp only [marshalAssignment, if_neg hn]
    rfl

/-- A marshalled assignment slice unmarshals to itself. -/
theorem unmarshalAssignments_marshalled (l : List Assignment) :
    (l.map marshalAssignment).mapM unmarshalAssignment = Except.ok l := by
  induction l with
  | nil => rfl
  | cons a rest ih =>
    rw [List.map_cons, List.mapM_cons, unmarshalAssignment_marshalAssignment a, ih]
    rfl

/-- C6: serializing any store with `Save` and constructing a new store from
the same file contents restores the assignment list exactly, field by
field. -/
theorem save_newStore_roundtrip (s : Store) (hp : s.path ≠ "") :
    newStore s.path (some s.save) = .ok s := by
  have hu : unmarshalStore s.save = .ok s.assignments := by
    show (s.assignments.map marshalAssignment).mapM unmarshalAssignment =
      .ok s.assignments
    exact unmarshalAssignments_marshalled s.assignments
  simp [newStore, hu, hp]

/-- Witness for C6: a store with three assignments round-trips to the same
three assignments. -/
theorem save_newStore_roundtrip_witness :
    newStore "/tmp/dispatch.json"
        (some (Store.save
          { path := "/tmp/dispatch.json",
            assignments :=
              [mkAssignment "PROJ-1" "Fix bug" "hostA" 1,
               mkAssignment "PROJ-2" "Add tests" "hostB" 2,
               { mkAssignment "PROJ-3" "Ship it" "hostA" 3 with
                  status := statusDone, note := "rolled out" }] })) =
      .ok { path := "/tmp/dispatch.json",
            assignments :=
              [mkAssignment "PROJ-1" "Fix bug" "hostA" 1,
               mkAssignment "PROJ-2" "Add tests" "hostB" 2,
               { mkAssignment "PROJ-3" "Ship it" "hostA" 3 with
                  status := statusDone, note := "rolled out" }] } :=
  save_newStore_roundtrip
    { path := "/tmp/dispatch.json",
      assignments :=
        [mkAssignment "PROJ-1" "Fix bug" "hostA" 1,
         mkAssignment "PROJ-2" "Add tests" "hostB" 2,
         { mkAssignment "PROJ-3" "Ship it" "hostA" 3 with
            status := statusDone, note := "rolled out" }] }
    (by decide)

/-- Any pair key present after an upsert was the upserted key or was
already present. -/
theorem mem_pairKey_assignList {x : String × String} (l : List Assignment)
    (a : Assignment) (h : x ∈ (assignList l a).map pairKey) :
    x = pairKey a ∨ x ∈ l.map pairKey := by
  induction l with
  | nil =>
    simp [assignList] at h
    exact Or.inl h
  | cons e rest ih =>
    by_cases he : e.issueKey = a.issueKey ∧ e.target = a.target
    · simp [assignList, he] at h
      rcases h with h | ⟨b, hb, hbx⟩
      · exact Or.inl h
      · refine Or.inr ?_
        simp only [List.map_cons, List.mem_cons]
        exact Or.inr (hbx ▸ List.mem_map_of_mem pairKey hb)
    · simp only [assignList, if_neg he, List.map_cons, List.mem_cons] at h
      rcases h with h | h
      · exact Or.inr (by simp [h])
      · rcases ih h with h' | h'
        · exact Or.inl h'
        · exact Or.inr (by simp at h' ⊢; tauto)

/-- The upsert of `Store.Assign` preserves pair-key uniqueness. -/
theorem uniquePairs_assignList (l : List Assignment) (a : Assignment)
    (h : UniquePairs l) : UniquePairs (assignList l a) := by
  induction l with
  | nil => simp [UniquePairs, assignList]
  | cons e rest ih =>
    have htail : UniquePairs rest := (List.nodup_cons.mp h).2
    have hout : pairKey e ∉ rest.map pairKey := (List.nodup_cons.mp h).1
    by_cases he : e.issueKey = a.issueKey ∧ e.target = a.target
    · have hke : pairKey e = pairKey a := by
        simp [pairKey, he.1, he.2]
      simp only [assignList, if_pos he, UniquePairs, List.map_cons]
      exact List.nodup_cons.mpr ⟨hke ▸ hout, htail⟩
    · have hka : pairKey e ≠ pairKey a := by
        intro hk
        exact he ⟨congrArg Prod.fst hk, congrArg Prod.snd hk⟩
      simp only [assignList, if_neg he, UniquePairs, List.map_cons]
      refine List.nodup_cons.mpr ⟨?_, ih htail⟩
      intro hmem
      rcases mem_pairKey_assignList rest a hmem with h' | h'
      · exact hka h'
      · exact hout h'

/-- `UpdateStatus` never changes any pair key. -/
theorem updateStatusList_map_pairKey (l : List Assignment) (id status note : String)
    (now : Nat) :
    (updateStatusList l id status note now).1.map pairKey = l.map pairKey := by
  induction l with
  | nil => rfl
  | cons a rest ih =>
    by_cases ha : a.id = id
    · simp [updateStatusList, ha, pairKey]
    · simp [updateStatusList, ha, ih]

/-- `Remove` yields a sublist of the assignment slice. -/
theorem removeList_sublist (l : List Assignment) (id : String) :
    (removeList l id).1.Sublist l := by
  induction l with
  | nil => simp [removeList]
  | cons a rest ih =>
    by_cases ha : a.id = id
    · simp only [removeList, if_pos ha]
      exact List.sublist_cons_self a rest
    · simpa [removeList, ha] using List.Sublist.cons₂ a ih

/-- C5: every assignment list reachable from the empty store by the public
operations has at most one assignment per `(issueKey, target)` pair, and
assigning the same pair twice keeps a single record carrying the second
call's summary, a pending status and the second call's timestamps. -/
theorem assign_unique_pairs :
    (∀ l, Reachable l → UniquePairs l) ∧
    ∀ k s₁ s₂ t n₁ n₂,
      assignList (assignList [] (mkAssignment k s₁ t n₁)) (mkAssignment k s₂ t n₂) =
        [mkAssignment k s₂ t n₂] := by
  constructor
  · intro l h
    induction h with
    | empty => simp [UniquePairs]
    | assign k s t n _ ih => exact uniquePairs_assignList _ _ ih
    | updateStatus id st note n _ ih =>
      unfold UniquePairs at ih ⊢
      rwa [updateStatusList_map_pairKey]
    | remove id _ ih =>
      exact List.Nodup.sublist (List.Sublist.map pairKey (removeList_sublist _ id)) ih
  · intro k s₁ s₂ t n₁ n₂
    simp [assignList, mkAssignment]

/-- Witness for C5: the invariant at a concretely reached store, and the
double assign of the spec's example. -/
theorem assign_unique_pairs_witness :
    UniquePairs
      (assignList (assignList [] (mkAssignment "PROJ-1" "Fix bug" "hostA" 1))
        (mkAssignment "PROJ-1" "Fix the bug properly" "hostA" 2)) ∧
    assignList (assignList [] (mkAssignment "PROJ-1" "Fix bug" "hostA" 1))
        (mkAssignment "PROJ-1" "Fix the bug properly" "hostA" 2) =
      [mkAssignment "PROJ-1" "Fix the bug properly" "hostA" 2] :=
  ⟨assign_unique_pairs.1 _
      (Reachable.assign "PROJ-1" "Fix the bug properly" "hostA" 2
        (Reachable.assign "PROJ-1" "Fix bug" "hostA" 1 Reachable.empty)),
    assign_unique_pairs.2 "PROJ-1" "Fix bug" "Fix the bug properly" "hostA" 1 2⟩

end Dispatch


namespace Pulse

/-- Reading back the key just written to the previous-state map. -/
theorem lookupPrev_insertPrev_self (m : PrevMap) (k : String) (v : Bool) :
    lookupPrev (insertPrev m k v) k = some v := by
  induction m with
  | nil => simp [insertPrev, lookupPrev]
  | cons p rest ih =>
    by_cases hk : p.1 = k
    · simp [insertPrev, hk, lookupPrev]
    · simp [insertPrev, hk, lookupPrev, ih]

/-- Writing one key leaves every other key's binding unchanged. -/
theorem lookupPrev_insertPrev_ne (m : PrevMap) (k : String) (v : Bool)
    (k' : String) (h : k ≠ k') :
    lookupPrev (insertPrev m k v) k' = lookupPrev m k' := by
  induction m with
  | nil => simp [insertPrev, lookupPrev, h]
  | cons p rest ih =>
    by_cases hk : p.1 = k
    · simp [insertPrev, hk, lookupPrev, h]
    · simp [insertPrev, hk, lookupPrev, ih]

end Pulse

namespace Pulse

/-- C4: a host first observed online, then offline, then online again over
three consecutive `Update` calls yields no event on the first call, exactly
one "went DOWN" transition with one `down` notification on the second, and
exactly one "came UP" transition with one `up` notification on the third —
two transitions and two notifications in total, in that order. -/
theorem tracker_up_down_up (prev : PrevMap) (hc : HostConfig)
    (r₁ r₂ r₃ : HostStatus) (h0 : lookupPrev prev hc.host = none)
    (hc1 : r₁.config = hc) (hb1 : r₁.online = true)
    (hc2 : r₂.config = hc) (hb2 : r₂.online = false)
    (hc3 : r₃.config = hc) (hb3 : r₃.online = true) :
    trackerUpdate prev [r₁] = (insertPrev prev hc.host true, [], []) ∧
    trackerUpdate (insertPrev prev hc.host true) [r₂] =
      (insertPrev (insertPrev prev hc.host true) hc.host false,
        [downMsg hc], [(hc, "down")]) ∧
    trackerUpdate (insertPrev (insertPrev prev hc.host true) hc.host false) [r₃] =
      (insertPrev (insertPrev (insertPrev prev hc.host true) hc.host false)
          hc.host true,
        [upMsg hc], [(hc, "up")]) := by
  refine ⟨?_, ?_, ?_⟩
  · simp [trackerUpdate, updateLoop, hc1, hb1, h0]
  · simp [trackerUpdate, updateLoop, hc2, hb2, lookupPrev_insertPrev_self]
  · simp [trackerUpdate, updateLoop, hc3, hb3, lookupPrev_insertPrev_self]

/-- Witness for C4 on a fresh tracker. -/
theorem tracker_up_down_up_witness :
    trackerUpdate [] [{ (default : HostStatus) with config := hostA, online := true }] =
      (insertPrev [] hostA.host true, [], []) ∧
    trackerUpdate (insertPrev [] hostA.host true)
        [{ (default : HostStatus) with config := hostA, online := false }] =
      (insertPrev (insertPrev [] hostA.host true) hostA.host false,
        [downMsg hostA], [(hostA, "down")]) ∧
    trackerUpdate (insertPrev (insertPrev [] hostA.host true) hostA.host false)
        [{ (default : HostStatus) with config := hostA, online := true }] =
      (insertPrev (insertPrev (insertPrev [] hostA.host true) hostA.host false)
          hostA.host true,
        [upMsg hostA], [(hostA, "up")]) :=
  tracker_up_down_up [] hostA
    { (default : HostStatus) with config := hostA, online := true }
    { (default : HostStatus) with config := hostA, online := false }
    { (default : HostStatus) with config := hostA, online := true }
    rfl rfl rfl rfl rfl rfl rfl

/-- C10: two entries of one batch with the same previously-unseen host are
processed against the map as it is updated within the call: the second
entry is compared with the flag the first entry just recorded, a single
batch can emit a transition, and the map keeps the last entry's flag. -/
theorem tracker_single_batch_duplicate (prev : PrevMap) (hc : HostConfig)
    (r₁ r₂ : HostStatus) (h0 : lookupPrev prev hc.host = none)
    (hc1 : r₁.config = hc) (hc2 : r₂.config = hc) :
    trackerUpdate prev [r₁, r₂] =
      (insertPrev (insertPrev prev hc.host r₁.online) hc.host r₂.online,
        if r₁.online && !r₂.online then [downMsg hc]
        else if !r₁.online && r₂.online then [upMsg hc]
        else [],
        if r₁.online && !r₂.online then [(hc, "down")]
        else if !r₁.online && r₂.online then [(hc, "up")]
        else []) ∧
    lookupPrev (trackerUpdate prev [r₁, r₂]).1 hc.host = some r₂.online := by
  have hmain : trackerUpdate prev [r₁, r₂] =
      (insertPrev (insertPrev prev hc.host r₁.online) hc.host r₂.online,
        if r₁.online && !r₂.online then [downMsg hc]
        else if !r₁.online && r₂.online then [upMsg hc]
        else [],
        if r₁.online && !r₂.online then [(hc, "down")]
        else if !r₁.online && r₂.online then [(hc, "up")]
        else []) := by
    cases hb1 : r₁.online <;> cases hb2 : r₂.online <;>
      simp [trackerUpdate, updateLoop, hc1, hc2, hb1, hb2, h0,
        lookupPrev_insertPrev_self]
  refine ⟨hmain, ?_⟩
  rw [hmain]
  exact lookupPrev_insertPrev_self _ _ _

/-- Witness for C10: an up entry followed by a down entry for the same
fresh host in one batch emits the "went DOWN" transition, and the map
stores the second flag. -/
theorem tracker_single_batch_duplicate_witness :
    trackerUpdate [] [{ (default : HostStatus) with config := hostB, online := true },
        { (default : HostStatus) with config := hostB, online := false }] =
      (insertPrev (insertPrev [] hostB.host true) hostB.host false,
        [downMsg hostB], [(hostB, "down")]) ∧
    lookupPrev (trackerUpdate []
        [{ (default : HostStatus) with config := hostB, online := true },
         { (default : HostStatus) with config := hostB, online := false }]).1
      hostB.host = some false := by
  have h := tracker_single_batch_duplicate [] hostB
    { (default : HostStatus) with config := hostB, online := true }
    { (default : HostStatus) with config := hostB, online := false }
    rfl rfl rfl
  exact ⟨by simpa using h.1, by simpa using h.2⟩

end Pulse

namespace Pulse

/-- `Update` emits a transition string and fires a notification at exactly
the same program points, so the transition list is always the image of the
notification list. -/
theorem updateLoop_msgs (results : List HostStatus) :
    ∀ (prev : PrevMap) (ts : List String) (ns : List (HostConfig × String)),
    ts = ns.map msgOfNotif →
    (updateLoop prev ts ns results).2.1 =
      ((updateLoop prev ts ns results).2.2).map msgOfNotif := by
  induction results with
  | nil => intro prev ts ns h; simpa [updateLoop] using h
  | cons r rest ih =>
    intro prev ts ns h
    rcases hseen : lookupPrev prev r.config.host with _ | w <;>
      simp only [updateLoop, hseen]
    · exact ih _ _ _ h
    · by_cases h1 : w && !r.online
      · simp only [if_pos h1]
        exact ih _ _ _ (by simp [h, msgOfNotif])
      · by_cases h2 : !w && r.online
        · simp only [if_neg h1, if_pos h2]
          exact ih _ _ _ (by simp [h, msgOfNotif])
        · simp only [if_neg h1, if_neg h2]
          exact ih _ _ _ h

/-- Every notification fired by `Update` either was already accumulated or
carries the config of one of the batch entries. -/
theorem updateLoop_notifs_mem (results : List HostStatus) :
    ∀ (prev : PrevMap) (ts : List String) (ns : List (HostConfig × String))
      (p : HostConfig × String),
    p ∈ (updateLoop prev ts ns results).2.2 →
    p ∈ ns ∨ ∃ x ∈ results, p.1 = x.config := by
  induction results with
  | nil =>
    intro prev ts ns p hp
    exact Or.inl (by simpa [updateLoop] using hp)
  | cons r rest ih =>
    intro prev ts ns p
    have step : ∀ ns' : List (HostConfig × String),
        (∀ q ∈ ns', q ∈ ns ∨ q.1 = r.config) →
        ∀ prev' ts', p ∈ (updateLoop prev' ts' ns' rest).2.2 →
        p ∈ ns ∨ ∃ x ∈ r :: rest, p.1 = x.config := by
      intro ns' hns prev' ts' hp
      rcases ih prev' ts' ns' p hp with h | ⟨x, hx, hpx⟩
      · rcases hns p h with h' | h'
        · exact Or.inl h'
        · exact Or.inr ⟨r, List.mem_cons_self r rest, h'⟩
      · exact Or.inr ⟨x, List.mem_cons_of_mem r hx, hpx⟩
    rcases hseen : lookupPrev prev r.config.host with _ | w <;>
      simp only [updateLoop, hseen]
    · exact step ns (fun q hq => Or.inl hq) _ ts
    · by_cases h1 : w && !r.online
      · simp only [if_pos h1]
        refine step (ns ++ [(r.config, "down")]) ?_ _ (ts ++ [downMsg r.config])
        intro q hq
        rcases List.mem_append.mp hq with h' | h'
        · exact Or.inl h'
        · simp only [List.mem_singleton] at h'
          exact Or.inr (by rw [h'])
      · by_cases h2 : !w && r.online
        · simp only [if_neg h1, if_pos h2]
          refine step (ns ++ [(r.config, "up")]) ?_ _ (ts ++ [upMsg r.config])
          intro q hq
          rcases List.mem_append.mp hq with h' | h'
          · exact Or.inl h'
          · simp only [List.mem_singleton] at h'
            exact Or.inr (by rw [h'])
        · simp only [if_neg h1, if_neg h2]
          exact step ns (fun q hq => Or.inl hq) _ ts

/-- Processing a batch that never mentions a host leaves that host's
binding in the previous-state map untouched. -/
theorem updateLoop_prev_absent (hkey : String) (results : List HostStatus)
    (hres : ∀ x ∈ results, x.config.host ≠ hkey) :
    ∀ (prev : PrevMap) (ts : List String) (ns : List (HostConfig × String)),
    lookupPrev (updateLoop prev ts ns results).1 hkey = lookupPrev prev hkey := by
  induction results with
  | nil => intro prev ts ns; rfl
  | cons r rest ih =>
    intro prev ts ns
    have hr : r.config.host ≠ hkey := hres r (List.mem_cons_self r rest)
    have hrest : ∀ x ∈ rest, x.config.host ≠ hkey :=
      fun x hx => hres x (List.mem_cons_of_mem r hx)
    rcases hseen : lookupPrev prev r.config.host with _ | w <;>
      simp only [updateLoop, hseen]
    · rw [ih hrest]
      exact lookupPrev_insertPrev_ne _ _ _ _ hr
    · by_cases h1 : w && !r.online
      · simp only [if_pos h1]
        rw [ih hrest]
        exact lookupPrev_insertPrev_ne _ _ _ _ hr
      · by_cases h2 : !w && r.online
        · simp only [if_neg h1, if_pos h2]
          rw [ih hrest]
          exact lookupPrev_insertPrev_ne _ _ _ _ hr
        · simp only [if_neg h1, if_neg h2]
          rw [ih hrest]
          exact lookupPrev_insertPrev_ne _ _ _ _ hr

/-- Core of C3: if a host is absent from the previous-state map and occurs
exactly once in the batch, `Update` records its flag and fires no
notification for it. -/
theorem updateLoop_first_seen (hkey : String) (r : HostStatus)
    (results : List HostStatus) :
    ∀ (prev : PrevMap) (ts : List String) (ns : List (HostConfig × String)),
    lookupPrev prev hkey = none →
    results.filter (fun x => x.config.host == hkey) = [r] →
    lookupPrev (updateLoop prev ts ns results).1 hkey = some r.online ∧
    ∀ p ∈ (updateLoop prev ts ns results).2.2, p ∈ ns ∨ p.1.host ≠ hkey := by
  induction results with
  | nil =>
    intro prev ts ns h0 hf
    simp at hf
  | cons x rest ih =>
    intro prev ts ns h0 hf
    by_cases hx : x.config.host = hkey
    · rw [List.filter_cons_of_pos (by simp [hx])] at hf
      simp only [List.cons.injEq] at hf
      obtain ⟨hxr, hrest_nil⟩ := hf
      have hrest : ∀ y ∈ rest, y.config.host ≠ hkey := by
        intro y hy hcon
        have hmem : y ∈ rest.filter (fun z => z.config.host == hkey) :=
          List.mem_filter.mpr ⟨hy, by simp [hcon]⟩
        rw [hrest_nil] at hmem
        simp at hmem
      have hx0 : lookupPrev prev x.config.host = none := by rw [hx]; exact h0
      simp only [updateLoop, hx0]
      constructor
      · rw [updateLoop_prev_absent hkey rest hrest]
        rw [← hxr, ← hx]
        exact lookupPrev_insertPrev_self prev x.config.host x.online
      · intro p hp
        rcases updateLoop_notifs_mem rest _ _ _ p hp with h | ⟨y, hy, hpy⟩
        · exact Or.inl h
        · exact Or.inr (by rw [hpy]; exact hrest y hy)
    · rw [List.filter_cons_of_neg (by simp [hx])] at hf
      have h0' : lookupPrev (insertPrev prev x.config.host x.online) hkey = none := by
        rw [lookupPrev_insertPrev_ne _ _ _ _ hx]
        exact h0
      have step : ∀ ns' : List (HostConfig × String),
          (∀ q ∈ ns', q ∈ ns ∨ q.1.host ≠ hkey) → ∀ ts',
          lookupPrev (updateLoop (insertPrev prev x.config.host x.online)
              ts' ns' rest).1 hkey = some r.online ∧
          ∀ p ∈ (updateLoop (insertPrev prev x.config.host x.online)
              ts' ns' rest).2.2, p ∈ ns ∨ p.1.host ≠ hkey := by
        intro ns' hns ts'
        have hres := ih _ ts' ns' h0' hf
        refine ⟨hres.1, ?_⟩
        intro p hp
        rcases hres.2 p hp with hin | hne
        · exact hns p hin
        · exact Or.inr hne
      rcases hseen : lookupPrev prev x.config.host with _ | w <;>
        simp only [updateLoop, hseen]
      · exact step ns (fun q hq => Or.inl hq) ts
      · by_cases h1 : w && !x.online
        · simp only [if_pos h1]
          refine step (ns ++ [(x.config, "down")]) ?_ (ts ++ [downMsg x.config])
          intro q hq
          rcases List.mem_append.mp hq with h' | h'
          · exact Or.inl h'
          · simp only [List.mem_singleton] at h'
            exact Or.inr (by rw [h']; exact hx)
        · by_cases h2 : !w && x.online
          · simp only [if_neg h1, if_pos h2]
            refine step (ns ++ [(x.config, "up")]) ?_ (ts ++ [upMsg x.config])
            intro q hq
            rcases List.mem_append.mp hq with h' | h'
            · exact Or.inl h'
            · simp only [List.mem_singleton] at h'
              exact Or.inr (by rw [h']; exact hx)
          · simp only [if_neg h1, if_neg h2]
            exact step ns (fun q hq => Or.inl hq) ts

/-- C3: a host absent from the tracker's previous-state map that appears
(once) in a batch has its current flag recorded, no notification is fired
for it, and — the transition list being exactly the rendered notification
list — no transition message is emitted for it either. -/
theorem tracker_first_observation (prev : PrevMap) (results : List HostStatus)
    (hkey : String) (r : HostStatus) (h0 : lookupPrev prev hkey = none)
    (huniq : results.filter (fun x => x.config.host == hkey) = [r]) :
    lookupPrev (trackerUpdate prev results).1 hkey = some r.online ∧
    (∀ p ∈ (trackerUpdate prev results).2.2, p.1.host ≠ hkey) ∧
    (trackerUpdate prev results).2.1 =
      ((trackerUpdate prev results).2.2).map msgOfNotif := by
  have h := updateLoop_first_seen hkey r results prev [] [] h0 huniq
  refine ⟨h.1, ?_, updateLoop_msgs results prev [] [] rfl⟩
  intro p hp
  rcases h.2 p hp with hin | hne
  · simp at hin
  · exact hne

/-- Witness for C3: a fresh tracker, one online host and one offline host,
neither producing an event for the host under scrutiny. -/
theorem tracker_first_observation_witness :
    lookupPrev (trackerUpdate []
        [{ (default : HostStatus) with config := hostA, online := true },
         { (default : HostStatus) with config := hostB, online := false }]).1
      hostA.host = some true ∧
    ∀ p ∈ (trackerUpdate []
        [{ (default : HostStatus) with config := hostA, online := true },
         { (default : HostStatus) with config := hostB, online := false }]).2.2,
      p.1.host ≠ hostA.host := by
  have h := tracker_first_observation []
    [{ (default : HostStatus) with config := hostA, online := true },
     { (default : HostStatus) with config := hostB, online := false }]
    hostA.host { (default : HostStatus) with config := hostA, online := true }
    rfl (by decide)
  exact ⟨h.1, h.2.1⟩

end Pulse

namespace Pulse

/-- Folding index-tagged reports into the result slice preserves its
length. -/
theorem gather_length (msgs : List (Nat × HostStatus)) :
    ∀ init : List HostStatus, (gather init msgs).length = init.length := by
  induction msgs with
  | nil => intro init; rfl
  | cons m rest ih =>
    intro init
    show (gather (init.set m.1 m.2) rest).length = init.length
    rw [ih, List.length_set]

/-- Slots whose index no report carries keep their initial content. -/
theorem gather_getElem?_notMem (msgs : List (Nat × HostStatus)) (i : Nat) :
    ∀ init : List HostStatus, i ∉ msgs.map Prod.fst →
    (gather init msgs)[i]? = init[i]? := by
  induction msgs with
  | nil => intro init _; rfl
  | cons m rest ih =>
    intro init hi
    simp only [List.map_cons, List.mem_cons, not_or] at hi
    show (gather (init.set m.1 m.2) rest)[i]? = init[i]?
    rw [ih _ hi.2, List.getElem?_set_ne (fun h => hi.1 h.symm)]

/-- A slot receives exactly the report tagged with its index, provided no
two reports share an index. -/
theorem gather_getElem?_mem (msgs : List (Nat × HostStatus)) (i : Nat)
    (v : HostStatus) :
    ∀ init : List HostStatus, (i, v) ∈ msgs → (msgs.map Prod.fst).Nodup →
    i < init.length → (gather init msgs)[i]? = some v := by
  induction msgs with
  | nil => intro init h _ _; simp at h
  | cons m rest ih =>
    intro init hmem hnd hi
    simp only [List.map_cons, List.nodup_cons] at hnd
    rcases List.mem_cons.mp hmem with h | h
    · have hm1 : m.1 = i := by rw [← h]
      have hm2 : m.2 = v := by rw [← h]
      show (gather (init.set m.1 m.2) rest)[i]? = some v
      rw [gather_getElem?_notMem rest i _ (hm1 ▸ hnd.1), hm1, hm2]
      exact List.getElem?_set_eq_of_lt v hi
    · show (gather (init.set m.1 m.2) rest)[i]? = some v
      exact ih _ h hnd.2 (by rwa [List.length_set])

/-- C1: for every host list of size `N` and every completion order of the
per-host workers, the fan-out returns exactly `N` results and slot `i`
holds the health check of host `i` — mixed success and failure included,
since `check` is arbitrary. -/
theorem checkAllHosts_deterministic (check : HostConfig → HostStatus)
    (hosts : List HostConfig) (order : List Nat)
    (hperm : order.Perm (List.range hosts.length)) :
    (checkAllHosts check hosts order).length = hosts.length ∧
    ∀ i, i < hosts.length →
      (checkAllHosts check hosts order)[i]? =
        some (check (hosts.getD i default)) := by
  constructor
  · rw [checkAllHosts, gather_length, List.length_replicate]
  · intro i hi
    have hmem : (i, check (hosts.getD i default)) ∈
        order.map fun j => (j, check (hosts.getD j default)) := by
      refine List.mem_map_of_mem _ ?_
      exact hperm.mem_iff.mpr (List.mem_range.mpr hi)
    have hfst : (order.map fun j => (j, check (hosts.getD j default))).map
        Prod.fst = order := by
      rw [List.map_map]
      exact List.map_id order
    have hnd : ((order.map fun j => (j, check (hosts.getD j default))).map
        Prod.fst).Nodup := by
      rw [hfst]
      exact hperm.nodup_iff.mpr (List.nodup_range hosts.length)
    exact gather_getElem?_mem _ i _ _ hmem hnd
      (by rw [List.length_replicate]; exact hi)

/-- Witness for C1: two hosts, workers completing in reverse order, one
host up and one down. -/
theorem checkAllHosts_deterministic_witness :
    (checkAllHosts (checkHost envDown 3) [hostA, hostB] [1, 0]).length = 2 ∧
    (checkAllHosts (checkHost envDown 3) [hostA, hostB] [1, 0])[0]? =
      some (checkHost envDown 3 hostA) ∧
    (checkAllHosts (checkHost envDown 3) [hostA, hostB] [1, 0])[1]? =
      some (checkHost envDown 3 hostB) := by
  have h := checkAllHosts_deterministic (checkHost envDown 3) [hostA, hostB]
    [1, 0] (by decide)
  exact ⟨h.1, h.2 0 (by decide), h.2 1 (by decide)⟩

end Pulse

namespace Pulse

/-- C2: once the session opens, `online` is true whatever the diagnostic
commands do; if every command fails or returns empty output the result has
all four metric fields unset and an empty error; and an individual step's
failure never prevents a later step (the disk field always reflects the
disk command's output). -/
theorem checkHost_session_open (env : SshEnv) (now : Nat) (hc : HostConfig)
    (hconn : env.connect hc = .ok ()) :
    (checkHost env now hc).online = true ∧
    ((∀ cmd out, env.run hc cmd = .ok out → out = "") →
      checkHost env now hc =
        { config := hc, online := true, cpu := "", memory := "", disk := "",
          uptime := "", lastCheck := now, error := "" }) ∧
    (∀ d, env.run hc diskCmd = .ok d →
      (checkHost env now hc).disk = goTrimSpace d) := by
  refine ⟨?_, ?_, ?_⟩
  · rcases hL : env.run hc loadavgCmd with eL | oL <;>
    rcases hM1 : env.run hc memLinuxCmd with e1 | o1 <;>
    rcases hM2 : env.run hc memMacCmd with e2 | o2 <;>
    rcases hD : env.run hc diskCmd with eD | oD <;>
    rcases hU : env.run hc uptimeCmd with eU | oU <;>
      simp [checkHost, memFallback, hconn, hL, hM1, hM2, hD, hU,
        apply_ite HostStatus.online]
  · intro hEmpty
    have c1 : goTrim "" "\x7b \x7d" = "" := rfl
    have c2 : goFields "" = [] := rfl
    have c3 : goTrimSpace "" = "" := rfl
    have c4 : goContains "" "load" = false := rfl
    rcases hL : env.run hc loadavgCmd with eL | oL <;>
    rcases hM1 : env.run hc memLinuxCmd with e1 | o1 <;>
    rcases hM2 : env.run hc memMacCmd with e2 | o2 <;>
    rcases hD : env.run hc diskCmd with eD | oD <;>
    rcases hU : env.run hc uptimeCmd with eU | oU <;>
      [skip; skip; skip; skip; skip; skip; skip; skip; skip; skip; skip; skip;
       skip; skip; skip; skip; skip; skip; skip; skip; skip; skip; skip; skip;
       skip; skip; skip; skip; skip; skip; skip; skip] <;>
    · try rw [hEmpty _ _ hL] at hL
      try rw [hEmpty _ _ hM1] at hM1
      try rw [hEmpty _ _ hM2] at hM2
      try rw [hEmpty _ _ hD] at hD
      try rw [hEmpty _ _ hU] at hU
      simp [checkHost, memFallback, hconn, hL, hM1, hM2, hD, hU, c1, c2, c3, c4]
  · intro d hD
    rcases hL : env.run hc loadavgCmd with eL | oL <;>
    rcases hM1 : env.run hc memLinuxCmd with e1 | o1 <;>
    rcases hM2 : env.run hc memMacCmd with e2 | o2 <;>
    rcases hU : env.run hc uptimeCmd with eU | oU <;>
      simp [checkHost, memFallback, hconn, hL, hM1, hM2, hD, hU,
        apply_ite HostStatus.disk]

end Pulse

namespace Pulse

/-- Witness for C2: a session that opens while every command fails yields
an online status with every metric unset and no error, and an environment
where only the disk command answers still fills the disk field. -/
theorem checkHost_session_open_witness :
    checkHost envOpenAllFail 0 hostA =
      { config := hostA, online := true, cpu := "", memory := "", disk := "",
        uptime := "", lastCheck := 0, error := "" } ∧
    (checkHost envOnlyDisk 1 hostA).online = true ∧
    (checkHost envOnlyDisk 1 hostA).disk = goTrimSpace " 42% " := by
  have h₁ := checkHost_session_open envOpenAllFail 0 hostA rfl
  have h₂ := checkHost_session_open envOnlyDisk 1 hostA rfl
  refine ⟨h₁.2.1 ?_, h₂.1, h₂.2.2 " 42% " rfl⟩
  intro cmd out hx
  simp [envOpenAllFail] at hx

/-- C8 (amended): the `error` field of a `checkHost` result is exactly the
session-open failure message — empty whenever the session opened — and
`online` is exactly session-open success; a partially failed metric step
never populates `error`. -/
theorem checkHost_error_only_from_connect (env : SshEnv) (now : Nat)
    (hc : HostConfig) :
    (checkHost env now hc).error =
      (match env.connect hc with | .error e => e | .ok _ => "") ∧
    (checkHost env now hc).online =
      (match env.connect hc with | .error _ => false | .ok _ => true) := by
  rcases hconn : env.connect hc with e | u
  · simp [checkHost, hconn]
  · rcases hL : env.run hc loadavgCmd with eL | oL <;>
    rcases hM1 : env.run hc memLinuxCmd with e1 | o1 <;>
    rcases hM2 : env.run hc memMacCmd with e2 | o2 <;>
    rcases hD : env.run hc diskCmd with eD | oD <;>
    rcases hU : env.run hc uptimeCmd with eU | oU <;>
      simp [checkHost, memFallback, hconn, hL, hM1, hM2, hD, hU,
        apply_ite HostStatus.error, apply_ite HostStatus.online]

/-- Counterexample to C8 as stated: with the session open and the load
command failing, a metric step failed yet the result's error is empty, so
"error non-empty iff the session failed to open or some metric step
failed" is false at this input. -/
theorem checkHost_error_claim_false :
    ¬ (((checkHost envOpenAllFail 0 hostA).error ≠ "") ↔
        (connectFailed envOpenAllFail hostA ∨
          metricStepFailed envOpenAllFail hostA)) := by
  intro h
  have hm : metricStepFailed envOpenAllFail hostA :=
    Or.inl ⟨"command failed", rfl⟩
  exact h.mpr (Or.inr hm) rfl

end Pulse
